import Mathlib

/-!
Verification of the `flow` dataflow runtime (src/include) against its
specification. We shallow-embed the data model: `pipe<T>` becomes a record
of its fields, the mutating member functions become state-passing Lean
functions; pins and the pipes shared between them become a small world
record with a pipe heap and pin references; `graph` becomes a record of
its three node maps, its node arena and its connections registry. Machine
`size_t` values are modelled as `Nat` (no overflow is exercised by any
claim). A null-pointer dereference in the C++ source is modelled by
returning `none` from an `Option`-valued function; lock acquisitions are
elided (the model is sequential).
-/

namespace Flow

/-- Pin identities used for a pipe's back pointers (`d_input_p` /
`d_output_p` are raw pointers in the source; the worlds below hold three
pins: the connecting outpin `o`, the target inpin `i` and the pipe's prior
upstream outpin `u`). -/
inductive Pid where
  | o : Pid
  | i : Pid
  | u : Pid
deriving DecidableEq, Repr

/-- Model of `flow::pipe<T>` (src/include/pipe.h): the packet queue
`d_packets` (front of the list = front of the deque), the caps
`d_max_length` / `d_max_weight`, the running weight `d_weight`, the name,
and the two nullable back pointers `d_input_p` (the producing outpin) and
`d_output_p` (the consuming inpin). `packet<T>::size()` is static
(`sizeof(T)`), so all packets of one pipe share one size; the operations
take it as the parameter `sz`. -/
structure Pipe (α : Type) where
  name : String
  packets : List α
  max_length : Nat
  max_weight : Nat
  weight : Nat
  input : Option Pid
  output : Option Pid
deriving DecidableEq, Repr

namespace Pipe

/-- `pipe::pipe(name, output_p, input_p, max_length, max_weight)`:
fresh pipe, `d_weight(0)`, empty queue. -/
def mk0 (name : String) (inp outp : Option Pid) (max_length max_weight : Nat) : Pipe α :=
  ⟨name, [], max_length, max_weight, 0, inp, outp⟩

/-- `pipe::length()`: `d_packets.size()`. -/
def length (p : Pipe α) : Nat := p.packets.length

/-- `pipe::rename` (inherited from `named`). -/
def rename (s : String) (p : Pipe α) : Pipe α := { p with name := s }

/-- `pipe::cap_length(max_length)`: sets `d_max_length`, returns the
previous cap. -/
def cap_length (n : Nat) (p : Pipe α) : Nat × Pipe α :=
  (p.max_length, { p with max_length := n })

/-- `pipe::cap_weight(max_weight)`: sets `d_max_weight`, returns the
previous cap. -/
def cap_weight (n : Nat) (p : Pipe α) : Nat × Pipe α :=
  (p.max_weight, { p with max_weight := n })

/-- `pipe::flush()`: returns `d_packets.size()` and clears the queue.
The source does not touch `d_weight` here. -/
def flush (p : Pipe α) : Nat × Pipe α :=
  (p.packets.length, { p with packets := [] })

/-- `pipe::push(packet_p)` with `sz = packet_p->size()`:
`if(d_max_length && (d_packets.size() == d_max_length)) return false;`
`if(d_max_weight && (d_weight + packet_p->size() > d_max_weight)) return false;`
then append and add to the weight. On `false` the pipe is untouched
(the packet stays with the caller). -/
def push (sz : Nat) (x : α) (p : Pipe α) : Bool × Pipe α :=
  if p.max_length ≠ 0 ∧ p.packets.length = p.max_length then (false, p)
  else if p.max_weight ≠ 0 ∧ p.weight + sz > p.max_weight then (false, p)
  else (true, { p with weight := p.weight + sz, packets := p.packets ++ [x] })

/-- `pipe::pop()`: empty queue gives the empty sentinel, otherwise the
front packet is removed and its size subtracted from the weight. -/
def pop (sz : Nat) (p : Pipe α) : Option α × Pipe α :=
  match p.packets with
  | [] => (none, p)
  | x :: xs => (some x, { p with packets := xs, weight := p.weight - sz })

end Pipe

/-- One operation of the sequence language over a pipe. -/
inductive PipeOp (α : Type) where
  | push (x : α) : PipeOp α
  | pop : PipeOp α
  | flush : PipeOp α
deriving DecidableEq, Repr

/-- Run a finite sequence of `push` / `pop` / `flush` operations on a pipe
(results of the individual calls are discarded; only the state is tracked). -/
def runOps (sz : Nat) : List (PipeOp α) → Pipe α → Pipe α
  | [], p => p
  | PipeOp.push x :: rest, p => runOps sz rest (Pipe.push sz x p).2
  | PipeOp.pop :: rest, p => runOps sz rest (Pipe.pop sz p).2
  | PipeOp.flush :: rest, p => runOps sz rest (Pipe.flush p).2

/-- `inpin<T>::peek()` over the queue the pin sees: `false` when there is
no pipe or the pipe is empty, `true` otherwise. A pin's pipe is modelled
as `Option (List α)` (`none` = detached). -/
def inpinPeek (q : Option (List α)) : Bool :=
  match q with
  | none => false
  | some l => !l.isEmpty

/-- `inpin<T>::pop()` over the queue the pin sees: empty sentinel when
there is no pipe or the pipe is empty, otherwise the front packet. -/
def inpinPop (q : Option (List α)) : Option α × Option (List α) :=
  match q with
  | none => (none, none)
  | some [] => (none, some [])
  | some (x :: xs) => (some x, some xs)

/-- `adder<T>::ready` (src/include/samples/math.h lines 37-69): if any
input pin fails `peek()`, return without touching anything; otherwise pop
one packet from every input (in index order), start the sum from
`terms[0]->data()` and `+=` the remaining terms in order, and push one
packet carrying the sum to output 0. Result: the input queues after the
call and the value pushed to output 0 (`none` when nothing was pushed).
The `[]` arm is unreachable for a non-empty input list; with zero inputs
the source indexes `terms[0]` out of bounds. -/
def adderReady (add : α → α → α) (ins : List (Option (List α))) :
    List (Option (List α)) × Option α :=
  if ins.all inpinPeek then
    let popped := ins.map inpinPop
    match popped.filterMap Prod.fst with
    | [] => (popped.map Prod.snd, none)
    | t :: rest => (popped.map Prod.snd, some (rest.foldl add t))
  else (ins, none)

/-- A world of three pins — outpin `o`, inpin `i`, outpin `u` — with a
heap of pipes. Each pin's `d_pipe_sp` is modelled as an optional index
into the heap (`none` = empty shared pointer); the pin names come from
`named`. -/
structure World (α : Type) where
  pipes : List (Pipe α)
  o_ref : Option Nat
  i_ref : Option Nat
  u_ref : Option Nat
  o_name : String
  i_name : String
  u_name : String
deriving DecidableEq, Repr

namespace World

/-- The pin's `d_pipe_sp`. -/
def ref (w : World α) : Pid → Option Nat
  | Pid.o => w.o_ref
  | Pid.i => w.i_ref
  | Pid.u => w.u_ref

/-- The pin's `named::name()`. -/
def pname (w : World α) : Pid → String
  | Pid.o => w.o_name
  | Pid.i => w.i_name
  | Pid.u => w.u_name

/-- Reassign a pin's `d_pipe_sp`. -/
def setRef (x : Pid) (r : Option Nat) (w : World α) : World α :=
  match x with
  | Pid.o => { w with o_ref := r }
  | Pid.i => { w with i_ref := r }
  | Pid.u => { w with u_ref := r }

/-- Overwrite the pipe at heap index `j` (shared mutation of the pipe seen
through every pin that references it). -/
def setPipe (j : Nat) (p : Pipe α) (w : World α) : World α :=
  { w with pipes := w.pipes.set j p }

end World

/-- `outpin<T>::disconnect()` (src/include/node.h lines 187-196) for the
outpin `x`: renames the pipe to `"nothing_to_" + output()->name()` and
releases the pin's share. There is no `if(d_pipe_sp)` guard, so a detached
pin dereferences a null `shared_ptr` (`none`); a pipe with a null
`d_output_p` dereferences that null pointer as well. -/
def outpinDisconnect (x : Pid) (w : World α) : Option (World α) :=
  match w.ref x with
  | none => none
  | some j =>
    match w.pipes[j]? with
    | none => none
    | some p =>
      match p.output with
      | none => none
      | some q =>
        let p1 := p.rename ("nothing" ++ "_to_" ++ w.pname q)
        some ((w.setPipe j p1).setRef x none)

/-- `inpin<T>::disconnect()` (src/include/node.h lines 96-105) for the pin
`i`: renames the pipe to `input()->name() + "_to_nothing"` and releases
the pin's share. As with the outpin there is no `if(d_pipe_sp)` guard. -/
def inpinDisconnect (w : World α) : Option (World α) :=
  match w.i_ref with
  | none => none
  | some j =>
    match w.pipes[j]? with
    | none => none
    | some p =>
      match p.input with
      | none => none
      | some q =>
        let p1 := p.rename (w.pname q ++ "_to_" ++ "nothing")
        some ((w.setPipe j p1).setRef Pid.i none)

/-- `outpin<T>::connect(inpin_r, max_length, max_weight)`
(src/include/node.h lines 206-239) for outpin `o` connecting to inpin `i`.
Step 1: if `o` holds a pipe, `disconnect()` it. If `i` holds a pipe, the
adopt branch runs: if the pipe's `input()` is non-null, call `disconnect()`
on that outpin (the source performs this while itself holding the very
pipe lock that disconnect re-acquires; the sequential model elides locks),
then `inpin_pipe.rename(name() + "_to_" + inpin_pipe.name())`, then
`cap_length(max_length)` followed by `cap_length(max_weight)` — both calls
are `cap_length` in the source — and the branch ends without assigning
this outpin's `d_pipe_sp`. Otherwise a fresh pipe is built and shared
between both pins. -/
def outpinConnect (max_length max_weight : Nat) (w : World α) : Option (World α) :=
  let step1 : Option (World α) :=
    match w.o_ref with
    | some _ => outpinDisconnect Pid.o w
    | none => some w
  match step1 with
  | none => none
  | some w1 =>
    match w1.i_ref with
    | some j =>
      match w1.pipes[j]? with
      | none => none
      | some p =>
        let afterU : Option (World α) :=
          match p.input with
          | some up => outpinDisconnect up w1
          | none => some w1
        match afterU with
        | none => none
        | some w2 =>
          match w2.pipes[j]? with
          | none => none
          | some p2 =>
            let p3 := p2.rename (w2.o_name ++ "_to_" ++ p2.name)
            let p4 := (p3.cap_length max_length).2
            let p5 := (p4.cap_length max_weight).2
            some (w2.setPipe j p5)
    | none =>
      let np : Pipe α :=
        Pipe.mk0 (w1.o_name ++ "_to_" ++ w1.i_name) (some Pid.o) (some Pid.i)
          max_length max_weight
      some { w1 with
              pipes := w1.pipes ++ [np],
              o_ref := some w1.pipes.length,
              i_ref := some w1.pipes.length }

/-- `outpin<T>::push(packet_p)` (src/include/node.h lines 274-293) for the
outpin `o`: `if(!d_pipe_sp) return false;` otherwise call `pipe::push`
under the pipe lock and, on success, capture `output()` as `inpin_p`;
after releasing the lock call `inpin_p->incoming()` when non-null. The
function returns `inpin_p == 0`. Result: (returned bool, new world,
whether `incoming()` was invoked). The heap-miss case is unreachable for
a valid reference. -/
def outpinPush (sz : Nat) (x : α) (w : World α) : Bool × World α × Bool :=
  match w.o_ref with
  | none => (false, w, false)
  | some j =>
    match w.pipes[j]? with
    | none => (false, w, false)
    | some p =>
      let r := p.push sz x
      let inpin_p : Option Pid := if r.1 then r.2.output else none
      (inpin_p.isNone, w.setPipe j r.2, inpin_p.isSome)

/-- The closed set of node variants, matching the `detail::producer` /
`detail::transformer` / `detail::consumer` tag bases that `graph`
classifies with `dynamic_pointer_cast`. -/
inductive NodeKind where
  | producerN : NodeKind
  | transformerN : NodeKind
  | consumerN : NodeKind
deriving DecidableEq, Repr, Fintype

/-- The three node states of `flow::state::type`. -/
inductive NState where
  | started : NState
  | paused : NState
  | stopped : NState
deriving DecidableEq, Repr

/-- A node as the graph sees it: its name, its variant tag, the element
type of its `consumer<T>` base (`none` when it has none) and of its
`producer<T>` base — `dynamic_pointer_cast<consumer<T>>` /
`<producer<T>>` succeeds exactly when the respective type matches — and
the attachment state of its input and output pins (`true` = the pin holds
a pipe). Pipe-level detail of the pins is modelled separately by `World`. -/
structure NodeV where
  name : String
  kind : NodeKind
  inType : Option Nat
  outType : Option Nat
  inPins : List Bool
  outPins : List Bool
deriving DecidableEq, Repr

/-- Association-list model of a `std::map<std::string, V>`: lookup. -/
def alistFind (k : String) : List (String × β) → Option β
  | [] => none
  | e :: rest => if e.1 = k then some e.2 else alistFind k rest

/-- `map[k] = v`: replace the (unique) entry with key `k`, or add one. -/
def alistInsert (k : String) (v : β) : List (String × β) → List (String × β)
  | [] => [(k, v)]
  | e :: rest => if e.1 = k then (k, v) :: rest else e :: alistInsert k v rest

/-- `map.erase(k)`. -/
def alistErase (k : String) (m : List (String × β)) : List (String × β) :=
  m.filter (fun e => e.1 != k)

/-- The connections registry: producer node name → (output pin index →
(consumer node name, input pin index)), as in
`std::map<std::string, std::map<size_t, std::pair<std::string, size_t>>>`. -/
abbrev Conns := List (String × List (Nat × String × Nat))

/-- `connections[k];` — `operator[]` creates an empty inner map when the
key is absent and leaves an existing entry untouched. -/
def connEnsure (k : String) (c : Conns) : Conns :=
  match alistFind k c with
  | some _ => c
  | none => c ++ [(k, [])]

/-- Inner-map write `m[pin] = tgt`. -/
def edgeSet (pin : Nat) (tgt : String × Nat) : List (Nat × String × Nat) → List (Nat × String × Nat)
  | [] => [(pin, tgt.1, tgt.2)]
  | e :: rest => if e.1 = pin then (pin, tgt.1, tgt.2) :: rest else e :: edgeSet pin tgt rest

/-- `connections[k][pin] = tgt`. -/
def connSet (k : String) (pin : Nat) (tgt : String × Nat) : Conns → Conns
  | [] => [(k, [(pin, tgt.1, tgt.2)])]
  | e :: rest => if e.1 = k then (e.1, edgeSet pin tgt e.2) :: rest else e :: connSet k pin tgt rest

/-- Model of `flow::graph` (src/include/graph.h): the node arena (the
targets of the `shared_ptr<node>`s, index = identity), the three variant
maps from node name to node, and the connections registry. The worker
(`d_threads`) bookkeeping of `start`/`stop` is elided: the claims concern
the order of the state transitions, captured by the trace functions
below. -/
structure Graph where
  nodes : List NodeV
  producers : List (String × Nat)
  transformers : List (String × Nat)
  consumers : List (String × Nat)
  connections : Conns
deriving DecidableEq, Repr

namespace Graph

/-- `graph::graph()`: empty registries. -/
def empty : Graph := ⟨[], [], [], [], []⟩

/-- The variant map a `NodeKind` selects. -/
def mapOf (g : Graph) : NodeKind → List (String × Nat)
  | NodeKind.producerN => g.producers
  | NodeKind.transformerN => g.transformers
  | NodeKind.consumerN => g.consumers

/-- Replace the variant map a `NodeKind` selects. -/
def setMapOf (g : Graph) : NodeKind → List (String × Nat) → Graph
  | NodeKind.producerN, m => { g with producers := m }
  | NodeKind.transformerN, m => { g with transformers := m }
  | NodeKind.consumerN, m => { g with consumers := m }

/-- `graph::add(node_p, name_r)` (graph.h lines 50-71): optionally rename
the node (the cascade to pin and pipe names is not observable in this
model, whose pins are attachment flags), classify it by its variant tag —
the source tests `detail::transformer` first, then `detail::producer`,
then `detail::consumer`, which the total `kind` field captures — insert it
into that map under its name (`operator[]` assignment: silently replaces
an existing mapping), and touch `connections[name]` (`operator[]`:
creates an empty entry if absent, leaves an existing one as is). -/
def add (g : Graph) (nv : NodeV) (name_r : Option String) : Graph :=
  let nv1 := match name_r with
    | some s => { nv with name := s }
    | none => nv
  let nid := g.nodes.length
  let g1 := { g with nodes := g.nodes ++ [nv1] }
  let g2 := g1.setMapOf nv1.kind (alistInsert nv1.name nid (g1.mapOf nv1.kind))
  { g2 with connections := connEnsure nv1.name g2.connections }

/-- `graph::find(name_r, i)` (graph.h lines 267-285): search the
producers, then the transformers, then the consumers. -/
def findNode (g : Graph) (name : String) : Option (NodeKind × Nat) :=
  match alistFind name g.producers with
  | some v => some (NodeKind.producerN, v)
  | none =>
    match alistFind name g.transformers with
    | some v => some (NodeKind.transformerN, v)
    | none =>
      match alistFind name g.consumers with
      | some v => some (NodeKind.consumerN, v)
      | none => none

end Graph

/-- `node::sever()`: `producer::sever` / `consumer::sever` (a transformer
runs both) call `disconnect()` on every pin. A disconnect on a detached
pin dereferences a null `shared_ptr` (see `inpinDisconnect` /
`outpinDisconnect`), so the call faults (`none`) unless every pin holds a
pipe; otherwise all pins end detached. -/
def severNode (nv : NodeV) : Option NodeV :=
  if (nv.inPins ++ nv.outPins).all (fun b => b) then
    some { nv with inPins := nv.inPins.map (fun _ => false),
                   outPins := nv.outPins.map (fun _ => false) }
  else none

namespace Graph

/-- `graph::remove(name_r)` (graph.h lines 78-94): locate the node (in
whichever variant map holds it); if found, `sever()` its pins, evict it
from that map and return it. In both cases `connections.erase(name_r)`
runs — erasing only the entry keyed by the removed name, i.e. the node's
outgoing edges; entries recorded under other producer names are not
visited. Result: `none` models a fault inside `sever` (see `severNode`),
otherwise the evicted node's id (the empty sentinel when absent) and the
new graph. -/
def remove (g : Graph) (name : String) : Option (Option Nat × Graph) :=
  match g.findNode name with
  | some (tag, nid) =>
    match g.nodes[nid]? with
    | none => none
    | some nv =>
      match severNode nv with
      | none => none
      | some nv1 =>
        let g1 := { g with nodes := g.nodes.set nid nv1 }
        let g2 := g1.setMapOf tag (alistErase name (g1.mapOf tag))
        some (some nid, { g2 with connections := alistErase name g2.connections })
  | none => some (none, { g with connections := alistErase name g.connections })

/-- `graph::connect<T>(p_name, p_pin, c_name, c_pin, max_length,
max_weight)` (graph.h lines 114-130): if either name is found in no
variant map, return false with the graph untouched. Otherwise the source
immediately dereferences `dynamic_pointer_cast<producer<T>>(p->second)`
— a null pointer when the node's producer element type is not `T` — and
passes `dynamic_pointer_cast<consumer<T>>(c->second).get()` into
`producer<T>::connect`, which dereferences it; a failed cast is a null
dereference (`none`), not a false return. On success the pin-level
`outpin::connect` runs (abstracted to the attachment flags: a detached
inpin gets a fresh pipe binding both pins; an inpin that already holds a
pipe keeps it and — per the adopt-branch defect established at the pin
model — leaves this outpin unbound), and the edge is recorded. -/
def connect (g : Graph) (T : Nat) (p_name : String) (p_pin : Nat)
    (c_name : String) (c_pin : Nat) (max_length : Nat := 0) (max_weight : Nat := 0) :
    Option (Bool × Graph) :=
  match g.findNode p_name, g.findNode c_name with
  | some (_, pid), some (_, cid) =>
    match g.nodes[pid]?, g.nodes[cid]? with
    | some pv, some cv =>
      if pv.outType ≠ some T then none
      else if cv.inType ≠ some T then none
      else
        match pv.outPins[p_pin]?, cv.inPins[c_pin]? with
        | some _, some cAtt =>
          let nodes1 := g.nodes.set pid
            { pv with outPins := pv.outPins.set p_pin (!cAtt) }
          let nodes2 :=
            match nodes1[cid]? with
            | some cv1 => nodes1.set cid { cv1 with inPins := cv1.inPins.set c_pin true }
            | none => nodes1
          some (true, { g with nodes := nodes2,
                               connections := connSet p_name p_pin (c_name, c_pin) g.connections })
        | _, _ => none
    | _, _ => none
  | _, _ => some (false, g)

/-- `graph::start()` (graph.h lines 188-204): iterate the consumers, then
the transformers, then the producers, transitioning each to `started`
(and spawning a worker when none exists — elided). The trace lists the
transitions each node receives, in order, tagged with the variant map it
came from. -/
def startTrace (g : Graph) : List (NodeKind × String × NState) :=
  g.consumers.map (fun e => (NodeKind.consumerN, e.1, NState.started)) ++
  g.transformers.map (fun e => (NodeKind.transformerN, e.1, NState.started)) ++
  g.producers.map (fun e => (NodeKind.producerN, e.1, NState.started))

/-- `graph::pause()` (graph.h lines 209-219): producers, then
transformers, then consumers, each transitioned to `paused`. -/
def pauseTrace (g : Graph) : List (NodeKind × String × NState) :=
  g.producers.map (fun e => (NodeKind.producerN, e.1, NState.paused)) ++
  g.transformers.map (fun e => (NodeKind.transformerN, e.1, NState.paused)) ++
  g.consumers.map (fun e => (NodeKind.consumerN, e.1, NState.paused))

/-- `graph::stop()` (graph.h lines 224-241): producers, then
transformers, then consumers, each transitioned to `stopped` (worker
joins elided). -/
def stopTrace (g : Graph) : List (NodeKind × String × NState) :=
  g.producers.map (fun e => (NodeKind.producerN, e.1, NState.stopped)) ++
  g.transformers.map (fun e => (NodeKind.transformerN, e.1, NState.stopped)) ++
  g.consumers.map (fun e => (NodeKind.consumerN, e.1, NState.stopped))

end Graph

end Flow

namespace Flow

/-- C1. In the adopt branch of `outpin<T>::connect` the source disconnects
the pipe's prior upstream and preserves the queued packets, but it never
assigns this outpin's `d_pipe_sp` (nor the pipe's `d_input_p`), and it
calls `cap_length` twice — `cap_length(max_length)` then
`cap_length(max_weight)` — so `max_length` ends up equal to the
`max_weight` argument and `max_weight` keeps its old value. At the failing
input — inpin `i` holding a pipe with one queued packet, old caps (2, 7),
upstream `u` attached, detached outpin `o` calling `connect(i, 3, 5)` —
the outpin ends unbound (`o_ref = none` where the claim requires the
shared pipe) and the caps end (5, 7) where the claim requires (3, 5); the
packet queue survives unchanged. -/
theorem C1_connect_adopt_misbinds :
    let w : World Nat :=
      ⟨[⟨"u_out0_to_i_in0", [10], 2, 7, 4, some Pid.u, some Pid.i⟩],
        none, some 0, some 0, "o_out0", "i_in0", "u_out0"⟩
    (outpinConnect 3 5 w).map World.o_ref = some none ∧
    (outpinConnect 3 5 w).map World.i_ref = some (some 0) ∧
    (outpinConnect 3 5 w).map World.u_ref = some none ∧
    (outpinConnect 3 5 w).map (fun w1 => w1.pipes.map Pipe.packets) = some [[10]] ∧
    (outpinConnect 3 5 w).map (fun w1 => w1.pipes.map Pipe.max_length) = some [5] ∧
    (outpinConnect 3 5 w).map (fun w1 => w1.pipes.map Pipe.max_weight) = some [7] := by
  decide

/-- C2. `outpin<T>::push` ends with `return inpin_p == 0;`, the inverse of
its own documented contract ("true if the packet was successfully moved to
the pipe"). At the failing input — an outpin attached to an empty uncapped
pipe with a downstream inpin — the pipe accepts the packet and
`incoming()` is invoked, yet `push` returns false; conversely on a full
pipe (length cap 1, one packet queued) the packet is refused and the pipe
unchanged, yet `push` returns true. The detached case (`!d_pipe_sp`) does
return false as the claim states. -/
theorem C2_push_return_inverted :
    let w : World Nat :=
      ⟨[⟨"o_out0_to_i_in0", [], 0, 0, 0, some Pid.o, some Pid.i⟩],
        some 0, some 0, none, "o_out0", "i_in0", "u_out0"⟩
    let wf : World Nat :=
      ⟨[⟨"o_out0_to_i_in0", [42], 1, 0, 4, some Pid.o, some Pid.i⟩],
        some 0, some 0, none, "o_out0", "i_in0", "u_out0"⟩
    (outpinPush 4 42 w).1 = false ∧
    (outpinPush 4 42 w).2.2 = true ∧
    (outpinPush 4 42 w).2.1.pipes.map Pipe.packets = [[42]] ∧
    (outpinPush 4 43 wf).1 = true ∧
    (outpinPush 4 43 wf).2.1 = wf ∧
    (outpinPush 4 43 wf).2.2 = false := by
  decide

/-- C3. The weight/length invariant of the claim holds through `push` and
`pop` but `pipe::flush` clears `d_packets` without resetting `d_weight`
(src/include/pipe.h lines 124-130), contradicting `weight()`'s own
documentation ("the sum of all bytes of all packets in the pipe"). At the
failing input — a fresh uncapped pipe of a 4-byte element type, one packet
pushed, then `flush()` — the pipe ends with no packets queued, `flush`
having returned the prior length 1, yet `weight()` still reports 4 where
the claim requires 0. -/
theorem C3_flush_leaves_weight_stale :
    let p0 : Pipe Nat := Pipe.mk0 "p" (some Pid.o) (some Pid.i) 0 0
    let p1 := runOps 4 [PipeOp.push 10, PipeOp.flush] p0
    p1.packets = [] ∧ p1.weight = 4 ∧
      (Pipe.flush (Pipe.push 4 10 p0).2).1 = 1 := by
  decide

/-- C4 counterexample. The claim states `push` returns false iff appending
would push the length past a non-zero `max_length` (or the weight past a
non-zero `max_weight`), including states reached by lowering a cap after
packets are queued. Reachable refutation: start from a fresh uncapped pipe,
push two packets of size 1, then `cap_length(1)`. Appending now would make
the length 3 > 1 with a non-zero cap, so the claim requires `push` to
return false — but the source compares `d_packets.size() == d_max_length`
(2 ≠ 1), the weight cap is 0, and the push succeeds. -/
theorem C4_push_succeeds_past_lowered_cap :
    let p0 : Pipe Nat := Pipe.mk0 "p" (some Pid.o) (some Pid.i) 0 0
    let st := (Pipe.cap_length 1 (Pipe.push 1 20 (Pipe.push 1 10 p0).2).2).2
    st.max_length ≠ 0 ∧ st.packets.length + 1 > st.max_length ∧
      (Pipe.push 1 30 st).1 = true := by
  decide

/-- C4 amended. `pipe::push` returns false iff the length cap is non-zero
and the current length is exactly equal to it, or the weight cap is
non-zero and the new weight would exceed it; on a false return the pipe is
returned unchanged (the packet stays with the caller). When the current
length already exceeds a lowered length cap, the push is not refused by
the length test. -/
theorem C4_push_false_iff_cap_hit (sz : Nat) (x : α) (p : Pipe α) :
    Pipe.push sz x p =
      if (p.max_length ≠ 0 ∧ p.packets.length = p.max_length) ∨
         (p.max_weight ≠ 0 ∧ p.weight + sz > p.max_weight) then (false, p)
      else (true, { p with weight := p.weight + sz, packets := p.packets ++ [x] }) := by
  unfold Pipe.push
  by_cases h1 : p.max_length ≠ 0 ∧ p.packets.length = p.max_length
  · simp [h1]
  · by_cases h2 : p.max_weight ≠ 0 ∧ p.weight + sz > p.max_weight
    · simp [h1, h2]
    · simp [h1, h2]

/-- C4 amended, witness at a concrete input: a pipe holding one packet of
size 2 with `max_length = 1` refuses the push and is unchanged. -/
theorem C4_push_false_iff_cap_hit_witness :
    Pipe.push 2 (7 : Nat) ⟨"w", [5], 1, 0, 2, some Pid.o, some Pid.i⟩ =
      if ((1 : Nat) ≠ 0 ∧ [(5 : Nat)].length = 1) ∨ ((0 : Nat) ≠ 0 ∧ 2 + 2 > 0)
      then (false, ⟨"w", [5], 1, 0, 2, some Pid.o, some Pid.i⟩)
      else (true, ⟨"w", [5, 7], 1, 0, 4, some Pid.o, some Pid.i⟩) :=
  C4_push_false_iff_cap_hit 2 7 ⟨"w", [5], 1, 0, 2, some Pid.o, some Pid.i⟩

/-- C9. The claim states `disconnect()` on a pin with no pipe is a
harmless no-op. The unqualified base `pin<T>::disconnect` would be, but
the overrides that every pin actually uses — `inpin<T>::disconnect`
(node.h 96-105) and `outpin<T>::disconnect` (node.h 187-196) — lock
`*d_pipe_sp->second` without the `if(d_pipe_sp)` guard that `peek`, `pop`
and `rename` all use, dereferencing a null `shared_ptr` when the pin is
detached (modelled as `none`). Consequently `sever()` — and through it
`graph::remove` — faults on a node with any detached pin instead of
completing. -/
theorem C9_disconnect_detached_faults :
    let w : World Nat := ⟨[], none, none, none, "o_out0", "i_in0", "u_out0"⟩
    inpinDisconnect w = none ∧ outpinDisconnect Pid.o w = none := by
  decide

theorem alistFind_erase_self (k : String) (m : List (String × β)) :
    alistFind k (alistErase k m) = none := by
  induction m with
  | nil => rfl
  | cons e rest ih =>
    by_cases h : e.1 = k
    · simpa [alistErase, List.filter_cons, h] using ih
    · simpa [alistErase, List.filter_cons, h, alistFind] using ih

theorem alistFind_erase_ne (k k' : String) (m : List (String × β)) (h : k' ≠ k) :
    alistFind k' (alistErase k m) = alistFind k' m := by
  induction m with
  | nil => rfl
  | cons e rest ih =>
    by_cases he : e.1 = k
    · have h2 : e.1 ≠ k' := by rw [he]; exact fun hk => h hk.symm
      calc alistFind k' (alistErase k (e :: rest))
          = alistFind k' (alistErase k rest) := by
            simp [alistErase, List.filter_cons, he]
        _ = alistFind k' rest := ih
        _ = alistFind k' (e :: rest) := by simp [alistFind, h2]
    · calc alistFind k' (alistErase k (e :: rest))
          = alistFind k' (e :: alistErase k rest) := by
            simp [alistErase, List.filter_cons, he]
        _ = alistFind k' (e :: rest) := by
            by_cases he' : e.1 = k'
            · simp [alistFind, he']
            · simp only [alistFind, if_neg he']
              exact ih

theorem alistFind_insert_self (k : String) (v : β) (m : List (String × β)) :
    alistFind k (alistInsert k v m) = some v := by
  induction m with
  | nil => simp [alistInsert, alistFind]
  | cons e rest ih =>
    by_cases h : e.1 = k
    · simp [alistInsert, h, alistFind]
    · simp [alistInsert, h, alistFind, ih]

theorem mem_alistInsert (k : String) (v : β) (m : List (String × β))
    (hnd : (m.map Prod.fst).Nodup) :
    ∀ e ∈ alistInsert k v m, e = (k, v) ∨ (e ∈ m ∧ e.1 ≠ k) := by
  induction m with
  | nil =>
    intro e he
    simp [alistInsert] at he
    left; exact he
  | cons a rest ih =>
    intro e he
    simp only [alistInsert] at he
    rw [List.map_cons, List.nodup_cons] at hnd
    by_cases h : a.1 = k
    · rw [if_pos h] at he
      rcases List.mem_cons.mp he with rfl | hmem
      · left; rfl
      · right
        refine ⟨List.mem_cons_of_mem _ hmem, fun hek => ?_⟩
        exact hnd.1 (by rw [h, ← hek]; exact List.mem_map_of_mem Prod.fst hmem)
    · rw [if_neg h] at he
      rcases List.mem_cons.mp he with rfl | hmem
      · right; exact ⟨List.mem_cons_self _ _, h⟩
      · rcases ih hnd.2 e hmem with h1 | ⟨h2, h3⟩
        · left; exact h1
        · right; exact ⟨List.mem_cons_of_mem _ h2, h3⟩

/-- C5. The claim requires a false return (with the graph unchanged) when
a located node fails the downcast to `producer<T>` / `consumer<T>`.
`graph::connect<T>` (graph.h 114-130) checks only the name lookups; the
`dynamic_pointer_cast` results are dereferenced unchecked, so a type
mismatch is a null-pointer dereference (`none`), not a false return. The
failing input is reachable: add a `producer<int>` "p" and a
`consumer<char>` "c" (int = 0, char = 1), then `connect<int>("p",0,"c",0)`
— the consumer cast fails and its null result is dereferenced inside
`producer<T>::connect`; `connect<char>` fails the producer cast the same
way. The missing-node cases do return false and leave the graph unchanged,
as claimed. -/
theorem C5_connect_unchecked_cast_faults :
    let g : Graph := (Graph.empty.add ⟨"p", NodeKind.producerN, none, some 0, [], [false]⟩ none).add
               ⟨"c", NodeKind.consumerN, some 1, none, [false], []⟩ none
    Graph.connect g 0 "p" 0 "c" 0 = none ∧
    Graph.connect g 1 "p" 0 "c" 0 = none ∧
    Graph.connect g 0 "p" 0 "missing" 0 = some (false, g) ∧
    Graph.connect g 0 "nobody" 0 "c" 0 = some (false, g) := by
  decide

/-- C6 counterexample. The claim requires that after `graph::remove(name)`
the connections registry holds no edge that refers to the removed node as
a target. `remove` only runs `connections.erase(name_r)` — the entry keyed
by the removed node — so edges recorded under other producers survive.
Reachable refutation: add producer "A" and consumer "B", connect A.0 to
B.0, then remove "B": "B" is gone from every variant map, yet the edge
`(0, ("B", 0))` is still recorded under "A". -/
theorem C6_remove_keeps_inbound_edge :
    ((Graph.connect
        ((Graph.empty.add ⟨"A", NodeKind.producerN, none, some 0, [], [false]⟩ none).add
          ⟨"B", NodeKind.consumerN, some 0, none, [false], []⟩ none)
        0 "A" 0 "B" 0).bind
      (fun r => r.2.remove "B")).map
        (fun s => (alistFind "A" s.2.connections, s.2.findNode "B")) =
      some (some [(0, "B", 0)], none) := by
  decide

/-- C6 amended. `graph::remove(name)` of a present node all of whose pins
hold pipes (a detached pin would fault in `sever`, see C9), where `name`
is registered in exactly one variant map: afterwards the node is absent
from all three variant maps, every one of its pins has been disconnected,
and the registry entry keyed by the removed name (its outgoing edges) is
erased — but that erase is the only change to the registry, so edges
recorded under other nodes that target the removed node remain. -/
theorem C6_remove_severs_and_clears_outgoing (g : Graph) (name : String)
    (tag : NodeKind) (nid : Nat) (nv : NodeV)
    (hfind : g.findNode name = some (tag, nid))
    (hnode : g.nodes[nid]? = some nv)
    (hpins : (nv.inPins ++ nv.outPins).all (fun b => b) = true)
    (hp : tag = NodeKind.producerN ∨ alistFind name g.producers = none)
    (ht : tag = NodeKind.transformerN ∨ alistFind name g.transformers = none)
    (hc : tag = NodeKind.consumerN ∨ alistFind name g.consumers = none) :
    ∃ g', g.remove name = some (some nid, g') ∧
      g'.findNode name = none ∧
      g'.nodes[nid]? = some { nv with inPins := nv.inPins.map (fun _ => false),
                                      outPins := nv.outPins.map (fun _ => false) } ∧
      alistFind name g'.connections = none ∧
      g'.connections = alistErase name g.connections := by
  have hset : (g.nodes.set nid
        { nv with inPins := nv.inPins.map (fun _ => false),
                  outPins := nv.outPins.map (fun _ => false) })[nid]? =
      some { nv with inPins := nv.inPins.map (fun _ => false),
                     outPins := nv.outPins.map (fun _ => false) } := by
    rw [List.getElem?_set_self', hnode]; rfl
  cases tag with
  | producerN =>
    have htn : alistFind name g.transformers = none := by
      rcases ht with h | h
      · exact absurd h (by simp)
      · exact h
    have hcn : alistFind name g.consumers = none := by
      rcases hc with h | h
      · exact absurd h (by simp)
      · exact h
    refine ⟨⟨g.nodes.set nid
               { nv with inPins := nv.inPins.map (fun _ => false),
                         outPins := nv.outPins.map (fun _ => false) },
             alistErase name g.producers, g.transformers, g.consumers,
             alistErase name g.connections⟩, ?_, ?_, ?_, ?_, rfl⟩
    · simp only [Graph.remove, hfind, hnode, severNode, hpins, ite_true,
                 Graph.setMapOf, Graph.mapOf]
    · unfold Graph.findNode
      simp [Graph.setMapOf, Graph.mapOf, alistFind_erase_self, htn, hcn]
    · exact hset
    · exact alistFind_erase_self name g.connections
  | transformerN =>
    have hpn : alistFind name g.producers = none := by
      rcases hp with h | h
      · exact absurd h (by simp)
      · exact h
    have hcn : alistFind name g.consumers = none := by
      rcases hc with h | h
      · exact absurd h (by simp)
      · exact h
    refine ⟨⟨g.nodes.set nid
               { nv with inPins := nv.inPins.map (fun _ => false),
                         outPins := nv.outPins.map (fun _ => false) },
             g.producers, alistErase name g.transformers, g.consumers,
             alistErase name g.connections⟩, ?_, ?_, ?_, ?_, rfl⟩
    · simp only [Graph.remove, hfind, hnode, severNode, hpins, ite_true,
                 Graph.setMapOf, Graph.mapOf]
    · unfold Graph.findNode
      simp [Graph.setMapOf, Graph.mapOf, alistFind_erase_self, hpn, hcn]
    · exact hset
    · exact alistFind_erase_self name g.connections
  | consumerN =>
    have hpn : alistFind name g.producers = none := by
      rcases hp with h | h
      · exact absurd h (by simp)
      · exact h
    have htn : alistFind name g.transformers = none := by
      rcases ht with h | h
      · exact absurd h (by simp)
      · exact h
    refine ⟨⟨g.nodes.set nid
               { nv with inPins := nv.inPins.map (fun _ => false),
                         outPins := nv.outPins.map (fun _ => false) },
             g.producers, g.transformers, alistErase name g.consumers,
             alistErase name g.connections⟩, ?_, ?_, ?_, ?_, rfl⟩
    · simp only [Graph.remove, hfind, hnode, severNode, hpins, ite_true,
                 Graph.setMapOf, Graph.mapOf]
    · unfold Graph.findNode
      simp [Graph.setMapOf, Graph.mapOf, alistFind_erase_self, hpn, htn]
    · exact hset
    · exact alistFind_erase_self name g.connections

/-- C6 amended, witness: a concrete two-node graph (producer "A" wired to
consumer "B") from which "B" is removed. -/
theorem C6_remove_severs_and_clears_outgoing_witness :
    ∃ g', Graph.remove ⟨[⟨"A", NodeKind.producerN, none, some 0, [], [true]⟩,
                         ⟨"B", NodeKind.consumerN, some 0, none, [true], []⟩],
                        [("A", 0)], [], [("B", 1)],
                        [("A", [(0, "B", 0)]), ("B", [])]⟩ "B" = some (some 1, g') ∧
      g'.findNode "B" = none ∧
      g'.nodes[1]? = some ⟨"B", NodeKind.consumerN, some 0, none, [false], []⟩ ∧
      alistFind "B" g'.connections = none ∧
      g'.connections = alistErase "B" [("A", [(0, "B", 0)]), ("B", [])] :=
  C6_remove_severs_and_clears_outgoing _ "B" NodeKind.consumerN 1
    ⟨"B", NodeKind.consumerN, some 0, none, [true], []⟩
    (by decide) (by decide) (by decide)
    (Or.inr (by decide)) (Or.inr (by decide)) (Or.inl rfl)

theorem block_lt (A B : List β) (f : β → NodeKind) (k : NodeKind)
    (hB : ∀ x ∈ B, f x ≠ k) (n : Nat) (hn : n < (A ++ B).length)
    (h : f ((A ++ B)[n]) = k) : n < A.length := by
  by_contra hc
  push_neg at hc
  rw [List.getElem_append_right hc] at h
  exact hB _ (List.getElem_mem _) h

theorem block_ge (A B : List β) (f : β → NodeKind) (k : NodeKind)
    (hA : ∀ x ∈ A, f x ≠ k) (n : Nat) (hn : n < (A ++ B).length)
    (h : f ((A ++ B)[n]) = k) : A.length ≤ n := by
  by_contra hc
  push_neg at hc
  rw [List.getElem_append_left hc] at h
  exact hA _ (List.getElem_mem _) h

theorem blockA_lt (A B C : List β) (f : β → NodeKind) (k : NodeKind)
    (hB : ∀ x ∈ B, f x ≠ k) (hC : ∀ x ∈ C, f x ≠ k)
    (n : Nat) (hn : n < (A ++ B ++ C).length)
    (h : f ((A ++ B ++ C)[n]) = k) : n < A.length := by
  have hAB : n < (A ++ B).length :=
    block_lt (A ++ B) C f k hC n hn h
  rw [List.getElem_append_left hAB] at h
  exact block_lt A B f k hB n hAB h

theorem blockAB_lt (A B C : List β) (f : β → NodeKind) (k : NodeKind)
    (hC : ∀ x ∈ C, f x ≠ k)
    (n : Nat) (hn : n < (A ++ B ++ C).length)
    (h : f ((A ++ B ++ C)[n]) = k) : n < A.length + B.length := by
  have hAB : n < (A ++ B).length :=
    block_lt (A ++ B) C f k hC n hn h
  simpa using hAB

theorem blockA_ge (A B C : List β) (f : β → NodeKind) (k : NodeKind)
    (hA : ∀ x ∈ A, f x ≠ k)
    (n : Nat) (hn : n < (A ++ B ++ C).length)
    (h : f ((A ++ B ++ C)[n]) = k) : A.length ≤ n := by
  by_cases hAB : n < (A ++ B).length
  · rw [List.getElem_append_left hAB] at h
    exact block_ge A B f k hA n hAB h
  · push_neg at hAB
    calc A.length ≤ (A ++ B).length := by simp
      _ ≤ n := hAB

theorem blockAB_ge (A B C : List β) (f : β → NodeKind) (k : NodeKind)
    (hA : ∀ x ∈ A, f x ≠ k) (hB : ∀ x ∈ B, f x ≠ k)
    (n : Nat) (hn : n < (A ++ B ++ C).length)
    (h : f ((A ++ B ++ C)[n]) = k) : A.length + B.length ≤ n := by
  have hAB : (A ++ B).length ≤ n := by
    refine block_ge (A ++ B) C f k ?_ n hn h
    intro x hx
    rcases List.mem_append.mp hx with hxa | hxb
    · exact hA x hxa
    · exact hB x hxb
  simpa using hAB

theorem fst_of_tagged (k : NodeKind) (st : NState) (l : List (String × Nat)) :
    ∀ x ∈ l.map (fun e => (k, e.1, st)), x.1 = k := by
  intro x hx
  obtain ⟨e, _, rfl⟩ := List.mem_map.mp hx
  rfl

/-- C7. During `graph::start()` every node of the consumers map receives
its transition to `started` before any node of the transformers map, and
every node of the transformers map before any node of the producers map;
during `graph::pause()` and `graph::stop()` the producers all transition
before the transformers, which all transition before the consumers
(graph.h lines 188-241: the three loops run in exactly those orders). -/
theorem C7_transition_order (g : Graph) :
    (∀ (i j : Nat) (hi : i < g.startTrace.length) (hj : j < g.startTrace.length),
       (g.startTrace[i]).1 = NodeKind.consumerN →
       (g.startTrace[j]).1 = NodeKind.transformerN → i < j) ∧
    (∀ (i j : Nat) (hi : i < g.startTrace.length) (hj : j < g.startTrace.length),
       (g.startTrace[i]).1 = NodeKind.transformerN →
       (g.startTrace[j]).1 = NodeKind.producerN → i < j) ∧
    (∀ (i j : Nat) (hi : i < g.pauseTrace.length) (hj : j < g.pauseTrace.length),
       (g.pauseTrace[i]).1 = NodeKind.producerN →
       (g.pauseTrace[j]).1 = NodeKind.transformerN → i < j) ∧
    (∀ (i j : Nat) (hi : i < g.pauseTrace.length) (hj : j < g.pauseTrace.length),
       (g.pauseTrace[i]).1 = NodeKind.transformerN →
       (g.pauseTrace[j]).1 = NodeKind.consumerN → i < j) ∧
    (∀ (i j : Nat) (hi : i < g.stopTrace.length) (hj : j < g.stopTrace.length),
       (g.stopTrace[i]).1 = NodeKind.producerN →
       (g.stopTrace[j]).1 = NodeKind.transformerN → i < j) ∧
    (∀ (i j : Nat) (hi : i < g.stopTrace.length) (hj : j < g.stopTrace.length),
       (g.stopTrace[i]).1 = NodeKind.transformerN →
       (g.stopTrace[j]).1 = NodeKind.consumerN → i < j) := by
  have hne : ∀ (k k' : NodeKind) (st : NState) (l : List (String × Nat)), k ≠ k' →
      ∀ x ∈ l.map (fun e => (k, e.1, st)), x.1 ≠ k' := by
    intro k k' st l hkk x hx
    rw [fst_of_tagged k st l x hx]
    exact hkk
  refine ⟨?_, ?_, ?_, ?_, ?_, ?_⟩
  · intro i j hi hj h1 h2
    have hi' := blockA_lt _ _ _ Prod.fst NodeKind.consumerN
      (hne _ _ _ _ (by decide)) (hne _ _ _ _ (by decide)) i hi h1
    have hj' := blockA_ge _ _ _ Prod.fst NodeKind.transformerN
      (hne _ _ _ _ (by decide)) j hj h2
    omega
  · intro i j hi hj h1 h2
    have hi' := blockAB_lt _ _ _ Prod.fst NodeKind.transformerN
      (hne _ _ _ _ (by decide)) i hi h1
    have hj' := blockAB_ge _ _ _ Prod.fst NodeKind.producerN
      (hne _ _ _ _ (by decide)) (hne _ _ _ _ (by decide)) j hj h2
    omega
  · intro i j hi hj h1 h2
    have hi' := blockA_lt _ _ _ Prod.fst NodeKind.producerN
      (hne _ _ _ _ (by decide)) (hne _ _ _ _ (by decide)) i hi h1
    have hj' := blockA_ge _ _ _ Prod.fst NodeKind.transformerN
      (hne _ _ _ _ (by decide)) j hj h2
    omega
  · intro i j hi hj h1 h2
    have hi' := blockAB_lt _ _ _ Prod.fst NodeKind.transformerN
      (hne _ _ _ _ (by decide)) i hi h1
    have hj' := blockAB_ge _ _ _ Prod.fst NodeKind.consumerN
      (hne _ _ _ _ (by decide)) (hne _ _ _ _ (by decide)) j hj h2
    omega
  · intro i j hi hj h1 h2
    have hi' := blockA_lt _ _ _ Prod.fst NodeKind.producerN
      (hne _ _ _ _ (by decide)) (hne _ _ _ _ (by decide)) i hi h1
    have hj' := blockA_ge _ _ _ Prod.fst NodeKind.transformerN
      (hne _ _ _ _ (by decide)) j hj h2
    omega
  · intro i j hi hj h1 h2
    have hi' := blockAB_lt _ _ _ Prod.fst NodeKind.transformerN
      (hne _ _ _ _ (by decide)) i hi h1
    have hj' := blockAB_ge _ _ _ Prod.fst NodeKind.consumerN
      (hne _ _ _ _ (by decide)) (hne _ _ _ _ (by decide)) j hj h2
    omega

/-- C7 witness on a three-node graph: each ordering pair instantiated at
the transition events of that graph's traces. -/
theorem C7_transition_order_witness :
    (0 : Nat) < 1 ∧ (1 : Nat) < 2 ∧ (0 : Nat) < 1 ∧ (1 : Nat) < 2 ∧
    (0 : Nat) < 1 ∧ (1 : Nat) < 2 := by
  have h := C7_transition_order ⟨[], [("P", 0)], [("T", 1)], [("C", 2)], []⟩
  exact ⟨h.1 0 1 (by decide) (by decide) (by decide) (by decide),
         h.2.1 1 2 (by decide) (by decide) (by decide) (by decide),
         h.2.2.1 0 1 (by decide) (by decide) (by decide) (by decide),
         h.2.2.2.1 1 2 (by decide) (by decide) (by decide) (by decide),
         h.2.2.2.2.1 0 1 (by decide) (by decide) (by decide) (by decide),
         h.2.2.2.2.2 1 2 (by decide) (by decide) (by decide) (by decide)⟩

/-- C8. `adder<T>::ready` with K ≥ 1 inputs: when some input has no packet
available (`peek()` false), the call returns with no input popped and no
output pushed; when every input has a packet, exactly one packet is popped
from each input (in index order) and exactly one packet is pushed to
output 0 whose value is the left fold under `+=` of the popped values in
input-index order, starting from input 0's value. -/
theorem C8_adder_fires_on_full_tuple (add : α → α → α) (ins : List (Option (List α)))
    (hK : 0 < ins.length) :
    (ins.all inpinPeek = false → adderReady add ins = (ins, none)) ∧
    (ins.all inpinPeek = true →
      (adderReady add ins).1 = ins.map (fun q => (inpinPop q).2) ∧
      ∃ v vs, ins.filterMap (fun q => (inpinPop q).1) = v :: vs ∧
        (adderReady add ins).2 = some (vs.foldl add v)) := by
  constructor
  · intro h
    unfold adderReady
    rw [h]
    simp
  · intro h
    obtain ⟨q, rest, rfl⟩ : ∃ q rest, ins = q :: rest := by
      cases ins with
      | nil => exact absurd hK (by simp)
      | cons q rest => exact ⟨q, rest, rfl⟩
    have hq : inpinPeek q = true := List.all_eq_true.mp h q (List.mem_cons_self _ _)
    match q, hq with
    | some (x :: xs), _ =>
      unfold adderReady
      rw [h]
      simp only [if_true, List.map_cons, List.filterMap_cons, List.map_map,
                 List.filterMap_map, inpinPop]
      exact ⟨rfl, x, rest.filterMap (fun q => (inpinPop q).1), rfl, rfl⟩

/-- C8 witness: a two-input adder over `Nat` with queues `[1, 2]` and
`[10]`. -/
theorem C8_adder_fires_on_full_tuple_witness :
    0 < ([some [1, 2], some [10]] : List (Option (List Nat))).length ∧
    ((([some [1, 2], some [10]] : List (Option (List Nat))).all inpinPeek = false →
        adderReady Nat.add [some [1, 2], some [10]] = ([some [1, 2], some [10]], none)) ∧
     (([some [1, 2], some [10]] : List (Option (List Nat))).all inpinPeek = true →
        (adderReady Nat.add [some [1, 2], some [10]]).1 =
          ([some [1, 2], some [10]] : List (Option (List Nat))).map (fun q => (inpinPop q).2) ∧
        ∃ v vs,
          ([some [1, 2], some [10]] : List (Option (List Nat))).filterMap
              (fun q => (inpinPop q).1) = v :: vs ∧
          (adderReady Nat.add [some [1, 2], some [10]]).2 = some (vs.foldl Nat.add v))) :=
  ⟨by decide, C8_adder_fires_on_full_tuple Nat.add [some [1, 2], some [10]] (by decide)⟩

/-- C10. `graph::add` of a node whose name already maps to a node in the
same variant map silently replaces the mapping: afterwards the name maps
to the new node (stored at the fresh arena slot), the old node object is
untouched — in particular none of its pins is severed — but no variant-map
entry references it any more, and an existing `connections` entry under
that name survives unchanged (`operator[]` only default-constructs when
the key is absent). Hypotheses: the maps' keys are unique (as in
`std::map`) and the replaced node is referenced by that single entry. -/
theorem C10_add_replaces_mapping (g : Graph) (nv oldNv : NodeV) (oldId : Nat)
    (es : List (Nat × String × Nat))
    (hold : alistFind nv.name (g.mapOf nv.kind) = some oldId)
    (holdNode : g.nodes[oldId]? = some oldNv)
    (hconn : alistFind nv.name g.connections = some es)
    (hnd : ((g.mapOf nv.kind).map Prod.fst).Nodup)
    (huniq : ∀ (k : NodeKind), ∀ e ∈ g.mapOf k, e.2 = oldId → k = nv.kind ∧ e.1 = nv.name) :
    alistFind nv.name ((g.add nv none).mapOf nv.kind) = some g.nodes.length ∧
    (g.add nv none).nodes[g.nodes.length]? = some nv ∧
    (g.add nv none).nodes[oldId]? = some oldNv ∧
    (∀ (k : NodeKind), ∀ e ∈ (g.add nv none).mapOf k, e.2 ≠ oldId) ∧
    alistFind nv.name (g.add nv none).connections = some es := by
  have hlt : oldId < g.nodes.length := by
    rcases List.getElem?_eq_some_iff.mp holdNode with ⟨h, _⟩
    exact h
  have hmap : ∀ (k : NodeKind), (g.add nv none).mapOf k =
      if k = nv.kind then alistInsert nv.name g.nodes.length (g.mapOf nv.kind)
      else g.mapOf k := by
    intro k
    unfold Graph.add
    cases hk : nv.kind <;> cases k <;>
      simp [Graph.setMapOf, Graph.mapOf, hk]
  have hconn' : (g.add nv none).connections = g.connections := by
    unfold Graph.add
    cases hk : nv.kind <;> simp [Graph.setMapOf, connEnsure, hconn, hk]
  have hnodes : (g.add nv none).nodes = g.nodes ++ [nv] := by
    unfold Graph.add
    cases hk : nv.kind <;> simp [Graph.setMapOf, hk]
  refine ⟨?_, ?_, ?_, ?_, ?_⟩
  · rw [hmap nv.kind, if_pos rfl]
    exact alistFind_insert_self _ _ _
  · rw [hnodes]
    exact List.getElem?_concat_length g.nodes nv
  · rw [hnodes, List.getElem?_append_left hlt]
    exact holdNode
  · intro k e he hid
    rw [hmap k] at he
    by_cases hk : k = nv.kind
    · rw [if_pos hk] at he
      rcases mem_alistInsert nv.name g.nodes.length (g.mapOf nv.kind) hnd e he with
        rfl | ⟨hmem, hkey⟩
      · exact absurd hid (by simpa using Nat.ne_of_gt hlt)
      · exact hkey (huniq nv.kind e hmem hid).2
    · rw [if_neg hk] at he
      exact hk (huniq k e he hid).1
  · rw [hconn']
    exact hconn

/-- C10 witness: a graph whose consumers map sends "n" to the old node at
arena slot 0; adding a new consumer named "n" replaces the mapping. -/
theorem C10_add_replaces_mapping_witness :
    alistFind "n" ((Graph.add ⟨[⟨"n", NodeKind.consumerN, some 0, none, [true], []⟩],
        [], [], [("n", 0)], [("n", [(0, "m", 0)])]⟩
        ⟨"n", NodeKind.consumerN, some 0, none, [false], []⟩ none).mapOf
        NodeKind.consumerN) = some 1 ∧
    (Graph.add ⟨[⟨"n", NodeKind.consumerN, some 0, none, [true], []⟩],
        [], [], [("n", 0)], [("n", [(0, "m", 0)])]⟩
        ⟨"n", NodeKind.consumerN, some 0, none, [false], []⟩ none).nodes[1]? =
      some ⟨"n", NodeKind.consumerN, some 0, none, [false], []⟩ ∧
    (Graph.add ⟨[⟨"n", NodeKind.consumerN, some 0, none, [true], []⟩],
        [], [], [("n", 0)], [("n", [(0, "m", 0)])]⟩
        ⟨"n", NodeKind.consumerN, some 0, none, [false], []⟩ none).nodes[0]? =
      some ⟨"n", NodeKind.consumerN, some 0, none, [true], []⟩ ∧
    (∀ (k : NodeKind), ∀ e ∈ (Graph.add ⟨[⟨"n", NodeKind.consumerN, some 0, none, [true], []⟩],
        [], [], [("n", 0)], [("n", [(0, "m", 0)])]⟩
        ⟨"n", NodeKind.consumerN, some 0, none, [false], []⟩ none).mapOf k, e.2 ≠ 0) ∧
    alistFind "n" (Graph.add ⟨[⟨"n", NodeKind.consumerN, some 0, none, [true], []⟩],
        [], [], [("n", 0)], [("n", [(0, "m", 0)])]⟩
        ⟨"n", NodeKind.consumerN, some 0, none, [false], []⟩ none).connections =
      some [(0, "m", 0)] :=
  C10_add_replaces_mapping
    ⟨[⟨"n", NodeKind.consumerN, some 0, none, [true], []⟩],
      [], [], [("n", 0)], [("n", [(0, "m", 0)])]⟩
    ⟨"n", NodeKind.consumerN, some 0, none, [false], []⟩
    ⟨"n", NodeKind.consumerN, some 0, none, [true], []⟩ 0 [(0, "m", 0)]
    (by decide) (by decide) (by decide) (by decide)
    (by decide)

end Flow
